import Mathlib

/-!
Verification of the signalJourney validator (`signaljourney_validator` Python
package) against its natural-language specification.

The development shallowly embeds the relevant source code:
  * `validator.py`   — `inline_refs`, `Validator.__init__`, `Validator.validate`
  * `schema_registry.py` — `SchemaVersionRegistry`
  * `errors.py`      — `ValidationErrorDetail._generate_suggestion`

JSON values are modelled by the inductive `JsonVal` (floating-point numbers
are omitted: no claim under scrutiny involves them).  Python dictionaries are
modelled as association lists in insertion order; Python exceptions are
modelled with `Except`/explicit outcome types; the filesystem is an explicit
finite map from (resolved, POSIX-style) path strings to file contents.
The third-party JSON-Schema engine (`jsonschema.Draft202012Validator`) is not
part of the repository and is modelled as an abstract parameter.
-/

namespace SignalJourney

/-- A parsed JSON value as produced by Python `json.load`.  `int` covers
Python ints; floats are not modelled (no claim depends on them). -/
inductive JsonVal where
  | null
  | bool (b : Bool)
  | int (n : Int)
  | str (s : String)
  | arr (xs : List JsonVal)
  | obj (fields : List (String × JsonVal))

-- Structural size of a JSON value (used for the `inline_refs` fuel bound).
mutual
def jsize : JsonVal → Nat
  | .null => 1
  | .bool _ => 1
  | .int _ => 1
  | .str _ => 1
  | .arr xs => 1 + jsizeL xs
  | .obj fs => 1 + jsizeF fs
def jsizeL : List JsonVal → Nat
  | [] => 0
  | x :: xs => 1 + jsize x + jsizeL xs
def jsizeF : List (String × JsonVal) → Nat
  | [] => 0
  | (_, v) :: xs => 1 + jsize v + jsizeF xs
end

/-- Python `dict.get`: first binding of `k` (Python dict keys are unique;
association lists model insertion order). -/
def dictGet (fields : List (String × JsonVal)) (k : String) : Option JsonVal :=
  match fields with
  | [] => none
  | (k2, v) :: rest => if k2 = k then some v else dictGet rest k

/-- Python truthiness of a JSON value (`if detected_version:`):
`None`, `False`, `0`, `""`, `[]`, `{}` are falsy, everything else truthy. -/
def truthy : JsonVal → Bool
  | .null => false
  | .bool b => b
  | .int n => n != 0
  | .str s => s.length != 0
  | .arr xs => xs.length != 0
  | .obj fs => fs.length != 0

/-- Python `type(x).__name__` for JSON-shaped values. -/
def pyTypeName : JsonVal → String
  | .null => "NoneType"
  | .bool _ => "bool"
  | .int _ => "int"
  | .str _ => "str"
  | .arr _ => "list"
  | .obj _ => "dict"

-- Python `repr` of a JSON-shaped value.  Escaping of quote characters
-- inside strings is not modelled (no claim depends on it).
mutual
def pyRepr : JsonVal → String
  | .null => "None"
  | .bool true => "True"
  | .bool false => "False"
  | .int n => toString n
  | .str s => "\x27" ++ s ++ "\x27"
  | .arr xs => "[" ++ pyReprL xs ++ "]"
  | .obj fs => "\x7b" ++ pyReprF fs ++ "\x7d"
def pyReprL : List JsonVal → String
  | [] => ""
  | [x] => pyRepr x
  | x :: xs => pyRepr x ++ ", " ++ pyReprL xs
def pyReprF : List (String × JsonVal) → String
  | [] => ""
  | [(k, v)] => "\x27" ++ k ++ "\x27: " ++ pyRepr v
  | (k, v) :: xs => "\x27" ++ k ++ "\x27: " ++ pyRepr v ++ ", " ++ pyReprF xs
end

/-- Python `str` of a JSON-shaped value (`str` on containers equals `repr`). -/
def pyStr : JsonVal → String
  | .str s => s
  | v => pyRepr v

/-- Python `str` of a list of Python strings, e.g.
`str(["0.1.0", "0.2.0"]) = "['0.1.0', '0.2.0']"`. -/
def strListRepr (xs : List String) : String :=
  "[" ++ String.intercalate ", " (xs.map fun s => "\x27" ++ s ++ "\x27") ++ "]"

/-- Python `"sep".join(xs)` on JSON values: raises `TypeError` if any element
is not a string. -/
def pyJoin (sep : String) : List JsonVal → Except String String
  | [] => .ok ""
  | [.str s] => .ok s
  | .str s :: (x :: xs) =>
    match pyJoin sep (x :: xs) with
    | .ok t => .ok (s ++ sep ++ t)
    | .error e => .error e
  | _ => .error "TypeError: sequence item: expected str instance"

/-! ## Paths and the modelled filesystem

Paths are plain strings.  `Path(base) / ref` followed by `.resolve()` is
modelled as string joining (an absolute `ref` replaces the base, as in
`pathlib`); `..`-normalisation performed by `.resolve()` is not modelled —
cache keys are taken to be the joined strings, which is adequate for every
claim under scrutiny. -/

/-- Split a character list on a separator character (Python `str.split(sep)`
semantics, including empty segments). -/
def splitChar (sep : Char) : List Char → List (List Char)
  | [] => [[]]
  | c :: cs =>
    match splitChar sep cs with
    | [] => [[c]]
    | g :: gs => if c = sep then [] :: g :: gs else (c :: g) :: gs

/-- Does the string start with the given character?  (`str.startswith`.) -/
def startsWithChar (s : String) (c : Char) : Bool :=
  match s.data with
  | [] => false
  | c2 :: _ => c2 = c

/-- `Path(base) / ref` (an absolute `ref` discards `base`, as in `pathlib`). -/
def resolvePath (base ref : String) : String :=
  if startsWithChar ref '/' then ref else base ++ "/" ++ ref

/-- `Path(p).parent` for already-joined paths. -/
def parentDir (p : String) : String :=
  let parts := splitChar '/' p.data
  if parts.length ≤ 1 then "."
  else String.mk (List.intercalate ['/'] parts.dropLast)

/-- A file on disk: either parsed JSON content or text that `json.load`
rejects. -/
inductive FileContent where
  | parsed (j : JsonVal)
  | malformed

/-- The filesystem: a finite map from resolved path strings to contents.
A path absent from the list does not exist (or is not a regular file). -/
def FS := List (String × FileContent)

/-- First match lookup in the filesystem. -/
def lookupFS (fs : FS) (p : String) : Option FileContent :=
  match fs with
  | [] => none
  | (q, c) :: rest => if q = p then some c else lookupFS rest p

/-! ## Reference inliner (`inline_refs`, validator.py lines 21–90) -/

/-- The `loaded_schemas_cache`: resolved path string ↦ (possibly partially
resolved) content.  Python dict semantics: insertion order, assignment
overwrites in place. -/
def Cache := List (String × JsonVal)

def lookupC (c : Cache) (p : String) : Option JsonVal :=
  match c with
  | [] => none
  | (q, v) :: rest => if q = p then some v else lookupC rest p

/-- Python `cache[key] = v`: overwrite in place if present, else append. -/
def insertC (c : Cache) (p : String) (v : JsonVal) : Cache :=
  match c with
  | [] => [(p, v)]
  | (q, w) :: rest => if q = p then (p, v) :: rest else (q, w) :: insertC rest p v

/-- `schema["$ref"]` when it is a string not starting with the internal
anchor marker `#` (validator.py lines 30–34). -/
def refTarget (fields : List (String × JsonVal)) : Option String :=
  match dictGet fields "$ref" with
  | some (.str s) => if startsWithChar s '#' then none else some s
  | _ => none

/-- Python `.copy()`: dicts and lists have it; scalars raise
`AttributeError` (modelled as `none`). -/
def copyJson : JsonVal → Option JsonVal
  | .arr xs => some (.arr xs)
  | .obj fs => some (.obj fs)
  | _ => none

/-- Outcome of one `inline_refs` call: a normal return or a Python exception
propagating out of the call, each together with the cache state. -/
inductive IRes where
  | ok (j : JsonVal) (c : Cache)
  | raise (c : Cache)

def IRes.cache : IRes → Cache
  | .ok _ c => c
  | .raise c => c

/-- The element-wise walk of a list value
(`[inline_refs(item, base_path, cache) for item in schema]`): `rec` is the
recursive call at the next depth; an exception from any element propagates
(`inr` carries the cache at the point of the exception). -/
def foldInlineL (rec : JsonVal → Cache → Option IRes) :
    List JsonVal → Cache → Option (Sum (List JsonVal × Cache) Cache)
  | [], cache => some (.inl ([], cache))
  | x :: xs, cache =>
    match rec x cache with
    | none => none
    | some (.raise c2) => some (.inr c2)
    | some (.ok v2 c2) =>
      match foldInlineL rec xs c2 with
      | none => none
      | some (.inr c3) => some (.inr c3)
      | some (.inl (done, c3)) => some (.inl (v2 :: done, c3))

/-- The key-wise walk of a mapping without a usable `$ref`
(`for key, value in schema.items(): new_schema[key] = inline_refs(...)`). -/
def foldInlineF (rec : JsonVal → Cache → Option IRes) :
    List (String × JsonVal) → Cache →
    Option (Sum (List (String × JsonVal) × Cache) Cache)
  | [], cache => some (.inl ([], cache))
  | (k, x) :: xs, cache =>
    match rec x cache with
    | none => none
    | some (.raise c2) => some (.inr c2)
    | some (.ok v2 c2) =>
      match foldInlineF rec xs c2 with
      | none => none
      | some (.inr c3) => some (.inr c3)
      | some (.inl (done, c3)) => some (.inl ((k, v2) :: done, c3))

/-- Shallow embedding of `inline_refs(schema, base_path, loaded_schemas_cache)`.

The `Nat` argument is recursion-depth fuel (Python has no fuel; the theorem
`inline_refs_terminates` shows a computable fuel bound under which the fuel
is never exhausted, which is exactly the termination of the Python function).
A result of `none` means the fuel ran out; `some (.raise c)` means the Python
call raises an exception (e.g. `AttributeError` from `.copy()` on a scalar
cache entry, validator.py line 45, which sits outside the `try` block).
Exceptions arising inside the `$ref` branch recursion are caught by the
`except` at line 67 and degrade to returning the original mapping. -/
def inline_refs (fs : FS) : Nat → String → JsonVal → Cache → Option IRes
  | 0, _, _, _ => none
  | fuel + 1, base, schema, cache =>
    match schema with
    | .obj fields =>
      match refTarget fields with
      | some refStr =>
        let key := resolvePath base refStr
        match lookupC cache key with
        | some v =>
          -- cache hit: `return loaded_schemas_cache[cache_key].copy()` —
          -- not inside any try block, so a failing `.copy()` propagates.
          match copyJson v with
          | some v2 => some (.ok v2 cache)
          | none => some (.raise cache)
        | none =>
          match lookupFS fs key with
          | some (.parsed content) =>
            -- store in cache BEFORE recursing, to break cycles
            let cache1 := insertC cache key content
            match inline_refs fs fuel (parentDir key) content cache1 with
            | none => none
            | some (.raise c2) =>
              -- exception inside the try block: caught, original kept
              some (.ok (.obj fields) c2)
            | some (.ok resolved c2) =>
              let c3 := insertC c2 key resolved
              match copyJson resolved with
              | some r => some (.ok r c3)
              | none => some (.ok (.obj fields) c3)
          | some .malformed => some (.ok (.obj fields) cache)
          | none => some (.ok (.obj fields) cache)
      | none =>
        -- recursively process every key of the mapping
        match foldInlineF (fun v c => inline_refs fs fuel base v c) fields cache with
        | none => none
        | some (.inr c2) => some (.raise c2)
        | some (.inl (done, c2)) => some (.ok (.obj done) c2)
    | .arr xs =>
      match foldInlineL (fun v c => inline_refs fs fuel base v c) xs cache with
      | none => none
      | some (.inr c2) => some (.raise c2)
      | some (.inl (done, c2)) => some (.ok (.arr done) c2)
    | other => some (.ok other cache)

/-- Weight of a file for the fuel bound: a parsed file can be recursed into
once (before its path enters the cache); malformed files are never entered. -/
def fileWeight : FileContent → Nat
  | .parsed j => jsize j + 1
  | .malformed => 0

/-- Total weight of the files not yet in the cache. -/
def fsWeight (fs : FS) (cache : Cache) : Nat :=
  match fs with
  | [] => 0
  | (p, c) :: rest =>
    (if (lookupC cache p).isSome then 0 else fileWeight c) + fsWeight rest cache

/-- Fuel that `inline_refs_terminates` proves sufficient. -/
def inlineBound (fs : FS) (schema : JsonVal) (cache : Cache) : Nat :=
  jsize schema + fsWeight fs cache + 1

/-- Key-set growth of the cache: every cached path stays cached.  The cache
is only ever written, never cleared, so every recursive step grows it. -/
def cacheLe (c c2 : Cache) : Prop :=
  ∀ p, (lookupC c p).isSome = true → (lookupC c2 p).isSome = true

/-- The cache component of a fold outcome. -/
def sumCache {β : Type} : Sum (β × Cache) Cache → Cache
  | .inl (_, c) => c
  | .inr c => c

/-! ## Error enrichment (`errors.py`)

`ValidationErrorDetail` is a dataclass whose `__post_init__` derives the
`suggestion` field from the constraint (`validator`) name and the
expected/actual values.  The fuzzy matcher (`fuzzywuzzy.process.extractOne`)
is an optional third-party import, modelled as the abstract parameter
`fuzzyExtractOne` together with the flag `hasFuzzy` (= `HAS_FUZZY`); a `none`
result models the bare-`except`-swallowed failure of the matcher. -/

/-- One element of an error path: a property name or an array index. -/
inductive JPathElem where
  | s (v : String)
  | i (n : Int)

/-- `ValidationErrorDetail` (errors.py lines 17–29); `context` omitted (no
claim involves nested errors). -/
structure ValidationErrorDetail where
  message : String
  path : List JPathElem
  schema_path : List JPathElem
  validator : String
  validator_value : JsonVal
  instance_value : JsonVal
  suggestion : Option String

/-- `ValidationErrorDetail._generate_suggestion` (errors.py lines 42–177).
Returns the suggestion to store (`none` = field left absent); `.error`
models a Python exception escaping the method (`str.join` raises `TypeError`
on non-string list items). -/
def generate_suggestion (hasFuzzy : Bool)
    (fuzzyExtractOne : String → List String → Option (String × Nat))
    (validator : String) (validator_value instance_value : JsonVal) :
    Except String (Option String) :=
  if validator = "required" then
    match validator_value with
    | .arr missing_props =>
      match pyJoin "\x27, \x27" missing_props with
      | .ok props_str =>
        .ok (some ("Ensure required property or properties (\x27" ++ props_str ++
          "\x27) are present."))
      | .error e => .error e
    | _ => .ok (some "Ensure required property is present (check schema for details).")
  else if validator = "type" then
    let actual_type := pyTypeName instance_value
    match validator_value with
    | .arr expected_types =>
      match pyJoin "\x27, \x27" expected_types with
      | .ok types_str =>
        .ok (some ("Change value type from \x27" ++ actual_type ++
          "\x27 to one of: \x27" ++ types_str ++ "\x27."))
      | .error e => .error e
    | .str t =>
      .ok (some ("Change value type from \x27" ++ actual_type ++ "\x27 to \x27" ++
        t ++ "\x27."))
    | _ =>
      .ok (some ("Check schema for expected type(s) instead of \x27" ++
        actual_type ++ "\x27."))
  else if validator = "pattern" then
    .ok (some ("Ensure value matches the required regex pattern: \x27" ++
      pyStr validator_value ++ "\x27."))
  else if validator = "enum" then
    match validator_value with
    | .arr allowed_values =>
      let base := "Value must be one of: " ++
        String.intercalate ", " (allowed_values.map pyRepr) ++ "."
      let text :=
        match instance_value with
        | .str s =>
          if hasFuzzy && s.length != 0 then
            let string_allowed_values := allowed_values.filterMap fun v =>
              match v with
              | .str t => some t
              | _ => none
            if string_allowed_values.length != 0 then
              match fuzzyExtractOne s string_allowed_values with
              | some (best_match, score) =>
                if score > 80 then
                  base ++ " Did you mean \x27" ++ best_match ++ "\x27?"
                else base
              | none => base
            else base
          else base
        | _ => base
      .ok (some text)
    | _ => .ok (some "Ensure value is one of the allowed options (check schema).")
  else if validator = "minLength" then
    let actual_len :=
      match instance_value with
      | .str s => toString s.length
      | .arr xs => toString xs.length
      | _ => "N/A"
    .ok (some ("Ensure value has at least " ++ pyStr validator_value ++
      " characters/items (currently " ++ actual_len ++ ")."))
  else if validator = "maxLength" then
    let actual_len :=
      match instance_value with
      | .str s => toString s.length
      | .arr xs => toString xs.length
      | _ => "N/A"
    .ok (some ("Ensure value has at most " ++ pyStr validator_value ++
      " characters/items (currently " ++ actual_len ++ ")."))
  else if validator = "minItems" then
    let actual_num :=
      match instance_value with
      | .arr xs => toString xs.length
      | _ => "N/A"
    .ok (some ("Ensure array has at least " ++ pyStr validator_value ++
      " items (currently " ++ actual_num ++ ")."))
  else if validator = "maxItems" then
    let actual_num :=
      match instance_value with
      | .arr xs => toString xs.length
      | _ => "N/A"
    .ok (some ("Ensure array has at most " ++ pyStr validator_value ++
      " items (currently " ++ actual_num ++ ")."))
  else if validator = "minimum" then
    .ok (some ("Ensure value is at least " ++ pyStr validator_value ++ "."))
  else if validator = "maximum" then
    .ok (some ("Ensure value is at most " ++ pyStr validator_value ++ "."))
  else if validator = "exclusiveMinimum" then
    .ok (some ("Ensure value is strictly greater than " ++
      pyStr validator_value ++ "."))
  else if validator = "exclusiveMaximum" then
    .ok (some ("Ensure value is strictly less than " ++
      pyStr validator_value ++ "."))
  else
    .ok none

/-- Constructing a `ValidationErrorDetail`: `__post_init__` runs
`_generate_suggestion`; an exception there escapes the constructor. -/
def mkDetail (hasFuzzy : Bool)
    (fuzzyExtractOne : String → List String → Option (String × Nat))
    (message : String) (path schema_path : List JPathElem) (validator : String)
    (validator_value instance_value : JsonVal) :
    Except String ValidationErrorDetail :=
  match generate_suggestion hasFuzzy fuzzyExtractOne validator validator_value
      instance_value with
  | .ok s =>
    .ok { message := message, path := path, schema_path := schema_path,
          validator := validator, validator_value := validator_value,
          instance_value := instance_value, suggestion := s }
  | .error e => .error e

/-- Total variant of `mkDetail`, used only at call sites whose `validator`
string provably cannot make `_generate_suggestion` raise (synthetic errors
with validator names "version_support", "version_detection", and "required"
with a boolean `validator_value`); at such sites it agrees with `mkDetail`. -/
def mkDetailU (hasFuzzy : Bool)
    (fuzzyExtractOne : String → List String → Option (String × Nat))
    (message : String) (path schema_path : List JPathElem) (validator : String)
    (validator_value instance_value : JsonVal) : ValidationErrorDetail :=
  { message := message, path := path, schema_path := schema_path,
    validator := validator, validator_value := validator_value,
    instance_value := instance_value,
    suggestion :=
      match generate_suggestion hasFuzzy fuzzyExtractOne validator
          validator_value instance_value with
      | .ok s => s
      | .error _ => none }

/-- Python exceptions that the embedded operations can raise.
`sjError` is `SignalJourneyValidationError` (message plus attached error
details); `nonTermination` is a marker for exhausted `inline_refs` fuel,
shown unreachable by `inline_refs_terminates`. -/
inductive PyExc where
  | fileNotFound (msg : String)
  | ioError (msg : String)
  | valueError (msg : String)
  | typeError (msg : String)
  | runtimeError (msg : String)
  | attributeError
  | sjError (msg : String) (errors : List ValidationErrorDetail)
  | nonTermination

/-! ## Schema Version Registry (`schema_registry.py`)

The versions directory is modelled by its listing: `none` when
`self.versions_dir` does not exist, otherwise the list of directory entries
in enumeration order.  Version sorting follows
`versions.sort(key=lambda v: tuple(map(int, v.split('.'))))` with the
`except ValueError: versions.sort()` lexical fallback (CPython computes all
sort keys before reordering, so the fallback sorts the original list). -/

/-- Digits-only numeral value (`none` on the empty string or a non-digit). -/
def digitsValAux : List Char → Nat → Option Nat
  | [], acc => some acc
  | c :: cs, acc =>
    if c.isDigit then digitsValAux cs (acc * 10 + (c.toNat - 48)) else none

def digitsVal : List Char → Option Nat
  | [] => none
  | cs => digitsValAux cs 0

/-- Python `int(part)` on a version component: optional sign then digits.
(Surrounding whitespace and `_` digit separators accepted by Python `int`
are not modelled; no version string in any claim uses them.) -/
def pyInt? : List Char → Option Int
  | '-' :: rest => (digitsVal rest).map fun n => -(n : Int)
  | '+' :: rest => (digitsVal rest).map fun n => (n : Int)
  | cs => (digitsVal cs).map fun n => (n : Int)

def parseKeyParts : List (List Char) → Option (List Int)
  | [] => some []
  | p :: ps =>
    match pyInt? p, parseKeyParts ps with
    | some n, some ns => some (n :: ns)
    | _, _ => none

/-- `tuple(map(int, v.split('.')))` — the numeric dotted-tuple sort key. -/
def versionKey (v : String) : Option (List Int) :=
  parseKeyParts (splitChar '.' v.data)

/-- `versionKey` with a default (only ever used when every key parses). -/
def versionKeyD (v : String) : List Int :=
  (versionKey v).getD []

/-- Python tuple `<=` on int tuples (lexicographic; a strict prefix is
smaller). -/
def tupLe : List Int → List Int → Bool
  | [], _ => true
  | _ :: _, [] => false
  | a :: as, b :: bs => if a < b then true else if b < a then false else tupLe as bs

/-- Python string `<` (code-point lexicographic), on character lists. -/
def lexLt : List Char → List Char → Bool
  | [], [] => false
  | [], _ :: _ => true
  | _ :: _, [] => false
  | a :: as, b :: bs => if a < b then true else if b < a then false else lexLt as bs

def strLt (s t : String) : Bool := lexLt s.data t.data

def strLe (s t : String) : Bool := !strLt t s

/-- One entry of the versions directory listing, as `_discover_versions`
inspects it: its name, whether it is a subdirectory, and whether it contains
the canonical `signalJourney.schema.json` file. -/
structure DirEntry where
  name : String
  isDir : Bool
  hasSchemaFile : Bool

/-- The version names collected by the discovery loop: subdirectories that
contain the canonical `signalJourney.schema.json`. -/
def qualifiedNames (entries : List DirEntry) : List String :=
  (entries.filter fun e => e.isDir && e.hasSchemaFile).map fun e => e.name

/-- `SchemaVersionRegistry._discover_versions` (schema_registry.py lines
33–55).  `root = none` models a non-existent versions directory. -/
def discover_versions (root : Option (List DirEntry)) : List String :=
  match root with
  | none => []
  | some entries =>
    let versions := qualifiedNames entries
    if versions.all fun v => (versionKey v).isSome then
      versions.mergeSort fun a b => tupLe (versionKeyD a) (versionKeyD b)
    else
      versions.mergeSort strLe

/-- Registry state after `__init__`: the versions-dir path and
`self._supported_versions` (= `_discover_versions()` of that directory). -/
structure SchemaVersionRegistry where
  versions_dir : String
  supported : List String

/-- `get_supported_versions` (pure view of the returned copy's contents; the
aliasing behaviour of `.copy()` is modelled separately on the heap model). -/
def get_supported_versions (reg : SchemaVersionRegistry) : List String :=
  reg.supported

/-- `is_version_supported` — exact membership test. -/
def is_version_supported (reg : SchemaVersionRegistry) (version : String) : Bool :=
  reg.supported.contains version

/-- Membership of an arbitrary detected value in the supported list
(`version in self._supported_versions` with Python `==`): a non-string can
never equal a member of a list of version strings. -/
def isSupportedJ (reg : SchemaVersionRegistry) : JsonVal → Bool
  | .str s => is_version_supported reg s
  | _ => false

/-- `get_latest_version` — last element of the sorted list, `None` if empty. -/
def get_latest_version (reg : SchemaVersionRegistry) : Option String :=
  reg.supported.getLast?

/-- `get_schema_path` — `ValueError` when the version is unsupported. -/
def get_schema_path (reg : SchemaVersionRegistry) (version : String) :
    Except PyExc String :=
  if !is_version_supported reg version then
    .error (.valueError ("Schema version \x27" ++ version ++
      "\x27 is not supported. Available versions: " ++ strListRepr reg.supported))
  else
    .ok (reg.versions_dir ++ "/" ++ version ++ "/signalJourney.schema.json")

/-- `load_schema` — reads and parses the file at `get_schema_path version`. -/
def load_schema (reg : SchemaVersionRegistry) (fs : FS) (version : String) :
    Except PyExc JsonVal :=
  match get_schema_path reg version with
  | .error e => .error e
  | .ok schema_path =>
    match lookupFS fs schema_path with
    | none => .error (.fileNotFound ("Schema file not found: " ++ schema_path))
    | some .malformed =>
      .error (.ioError ("Invalid JSON in schema file " ++ schema_path))
    | some (.parsed j) => .ok j

/-- The `data` argument of `detect_schema_version` / `Validator.validate`:
a `pathlib.Path`, a `str`, a `dict`, or any other Python object. -/
inductive PyData where
  | path (p : String)
  | str (s : String)
  | dict (fields : List (String × JsonVal))
  | otherData

/-- The `schema_version` field of a mapping, as Python `instance.get`
returns it: the value, or `None` when absent (absence and an explicit JSON
`null` are indistinguishable to the caller). -/
def getSchemaVersionField (fields : List (String × JsonVal)) : JsonVal :=
  (dictGet fields "schema_version").getD .null

/-- `detect_schema_version` (schema_registry.py lines 119–152).  A `str` is
treated as a filesystem path (`Path(data)`); a parsed file whose top level
is not a mapping makes `instance.get` raise `AttributeError`. -/
def detect_schema_version (reg : SchemaVersionRegistry) (fs : FS)
    (data : PyData) : Except PyExc JsonVal :=
  match data with
  | .path p | .str p =>
    match lookupFS fs p with
    | none => .error (.fileNotFound ("File not found: " ++ p))
    | some .malformed => .error (.ioError ("Invalid JSON in file " ++ p))
    | some (.parsed j) =>
      match j with
      | .obj fields => .ok (getSchemaVersionField fields)
      | _ => .error .attributeError
  | .dict fields => .ok (getSchemaVersionField fields)
  | .otherData => .error (.typeError "Data must be a Path, string, or dictionary.")

/-- `get_default_schema_version` — latest version, `RuntimeError` if none. -/
def get_default_schema_version (reg : SchemaVersionRegistry) :
    Except PyExc String :=
  match reg.supported.getLast? with
  | none => .error (.runtimeError "No schema versions available")
  | some v => .ok v

/-! ## Heap model for `get_supported_versions` aliasing (claim C10)

`self._supported_versions` is a Python list object; `get_supported_versions`
returns `self._supported_versions.copy()`.  To state that mutating the
returned list leaves the registry unchanged, list objects live in an explicit
heap of addresses. -/

/-- A heap of Python list-of-string objects, addressed by `Nat`. -/
def VHeap := List (Nat × List String)

def heapGet (h : VHeap) (a : Nat) : Option (List String) :=
  match h with
  | [] => none
  | (b, v) :: rest => if b = a then some v else heapGet rest a

/-- In-place mutation of the list object at address `a`. -/
def heapSet (h : VHeap) (a : Nat) (v : List String) : VHeap :=
  h.map fun p => if p.1 = a then (a, v) else p

/-- An address not used by any object in the heap. -/
def freshAddr (h : VHeap) : Nat :=
  (h.map fun p => p.1).foldr Nat.max 0 + 1

/-- A registry whose `_supported_versions` is the list object at `suppAddr`. -/
structure RegistryObj where
  versions_dir : String
  suppAddr : Nat

/-- The pure registry state a heap-resident registry currently denotes. -/
def regView (reg : RegistryObj) (h : VHeap) : SchemaVersionRegistry :=
  { versions_dir := reg.versions_dir,
    supported := (heapGet h reg.suppAddr).getD [] }

/-- `get_supported_versions` on the heap: `self._supported_versions.copy()`
allocates a fresh list object with the same contents and returns its
address. -/
def get_supported_versions_heap (reg : RegistryObj) (h : VHeap) : Nat × VHeap :=
  let a := freshAddr h
  (a, (a, (heapGet h reg.suppAddr).getD []) :: h)

/-! ## Validator façade (`validator.py`)

The third-party JSON-Schema engine is abstracted: `Engine.self_errors` is
`self._validator.iter_errors`, `Engine.version_errors v` is `iter_errors` of
the validator `_create_validator_for_version(v)` builds, and
`Engine.check_schema` is `Draft202012Validator.check_schema` (true =
accepts).  Failure modes internal to the engine (RefResolutionError,
SchemaError during `iter_errors`) are not modelled; no claim depends on
them. -/

/-- A raw failure produced by the schema-validation engine. -/
structure RawError where
  message : String
  path : List JPathElem
  schema_path : List JPathElem
  validator : String
  validator_value : JsonVal
  instance_value : JsonVal

/-- The abstract schema-validation engine. -/
structure Engine where
  self_errors : JsonVal → List RawError
  version_errors : String → JsonVal → List RawError
  check_schema : JsonVal → Bool

/-- Strict order on path elements.  `jsonschema` paths mix property names
and integer indices; Python would raise `TypeError` comparing an `int` to a
`str` — that case is modelled by a fixed order (ints first); no claim
depends on it. -/
def peLt : JPathElem → JPathElem → Bool
  | .i a, .i b => a < b
  | .s a, .s b => strLt a b
  | .i _, .s _ => true
  | .s _, .i _ => false

/-- Lexicographic comparison of error paths (the `sorted(..., key=e.path)`
order). -/
def pathLe : List JPathElem → List JPathElem → Bool
  | [], _ => true
  | _ :: _, [] => false
  | a :: as, b :: bs =>
    if peLt a b then true else if peLt b a then false else pathLe as bs

/-- `sorted(validator_to_use.iter_errors(instance), key=lambda e: e.path)`. -/
def sortByPath (errs : List RawError) : List RawError :=
  errs.mergeSort fun a b => pathLe a.path b.path

/-- Convert each engine error to a `ValidationErrorDetail`; an exception
from a detail constructor aborts the loop (it is inside the `try` of
validator.py lines 361–396). -/
def convertDetails (hasFuzzy : Bool)
    (fuzzyExtractOne : String → List String → Option (String × Nat)) :
    List RawError → Except String (List ValidationErrorDetail)
  | [] => .ok []
  | e :: rest =>
    match mkDetail hasFuzzy fuzzyExtractOne e.message e.path e.schema_path
        e.validator e.validator_value e.instance_value with
    | .error ex => .error ex
    | .ok d =>
      match convertDetails hasFuzzy fuzzyExtractOne rest with
      | .error ex => .error ex
      | .ok ds => .ok (d :: ds)

/-- The mutable state `Validator.__init__` establishes. -/
structure ValidatorState where
  schema_version : Option String
  schema : JsonVal

/-- The `schema` argument of `Validator.__init__`: a path (`Path` or `str`)
or a pre-loaded dictionary. -/
inductive SchemaArg where
  | path (p : String)
  | dict (fields : List (String × JsonVal))

/-- The legacy default schema location (`DEFAULT_SCHEMA_PATH`), as a path
string in the modelled filesystem. -/
def DEFAULT_SCHEMA_PATH : String := "schema/signalJourney.schema.json"

/-- `Validator._load_schema_dict` for a non-dict input: load from
`schema_path` (or the default). -/
def load_schema_dict (fs : FS) (load_path : String) : Except PyExc JsonVal :=
  match lookupFS fs load_path with
  | none => .error (.fileNotFound ("Schema file not found: " ++ load_path))
  | some .malformed =>
    .error (.ioError ("Error reading schema file " ++ load_path))
  | some (.parsed j) => .ok j

/-- The schema-selection stage of `Validator.__init__` (validator.py lines
105–154): yields `self._schema_version`, the loaded schema, and the base
resolve path.  The three source branches: explicit `schema` (used regardless
of `schema_version` — there is no mutual-exclusion check), explicit
`schema_version` (registry load), and the default branch (latest version,
falling back to the legacy default path if anything in the registry path
raises). -/
def Validator_init_load (reg : SchemaVersionRegistry) (fs : FS)
    (schema : Option SchemaArg) (schema_version : Option String) :
    Except PyExc (Option String × JsonVal × String) :=
  match schema with
    | some arg =>
      -- use provided schema (legacy behaviour); `schema_version` is kept
      -- as `self._schema_version` without any compatibility check
      match arg with
      | .dict fields =>
        .ok (schema_version, .obj fields, parentDir DEFAULT_SCHEMA_PATH)
      | .path p =>
        match load_schema_dict fs p with
        | .error e => .error e
        | .ok j => .ok (schema_version, j, parentDir p)
    | none =>
      match schema_version with
      | some v =>
        if !is_version_supported reg v then
          .error (.valueError ("Schema version \x27" ++ v ++
            "\x27 is not supported. Available versions: " ++
            strListRepr reg.supported))
        else
          match get_schema_path reg v with
          | .error e => .error e
          | .ok schema_path =>
            match load_schema reg fs v with
            | .error e => .error e
            | .ok j => .ok (some v, j, parentDir schema_path)
      | none =>
        -- try the registry (latest version); on any exception fall back to
        -- the legacy default path.  `self._schema_version` is assigned the
        -- latest version before anything can raise.
        let latest := get_latest_version reg
        let viaRegistry : Except PyExc (JsonVal × String) :=
          match latest with
          | none =>
            -- `get_schema_path(None)` raises ValueError (None unsupported)
            .error (.valueError "Schema version \x27None\x27 is not supported.")
          | some v =>
            match get_schema_path reg v with
            | .error e => .error e
            | .ok schema_path =>
              match load_schema reg fs v with
              | .error e => .error e
              | .ok j => .ok (j, parentDir schema_path)
        match viaRegistry with
        | .ok (j, base) => .ok (latest, j, base)
        | .error _ =>
          match load_schema_dict fs DEFAULT_SCHEMA_PATH with
          | .error e => .error e
          | .ok j => .ok (latest, j, parentDir DEFAULT_SCHEMA_PATH)

/-- The tail of `__init__`: `$ref`-inline the loaded schema (the fuel bound
is adequate by `inline_refs_terminates`) and check it with the engine. -/
def Validator_init_finish (eng : Engine) (fs : FS)
    (loaded : Except PyExc (Option String × JsonVal × String)) :
    Except PyExc ValidatorState :=
  match loaded with
  | .error e => .error e
  | .ok (version_final, initial_schema, base_resolve_path) =>
    match inline_refs fs (inlineBound fs initial_schema []) base_resolve_path
        initial_schema [] with
    | none => .error .nonTermination
    | some (.raise _) => .error .attributeError
    | some (.ok resolved _) =>
      if eng.check_schema resolved then
        .ok { schema_version := version_final, schema := resolved }
      else
        .error (.sjError "Invalid schema provided" [])

/-- `Validator.__init__` as the composition of its two stages. -/
def Validator_init (eng : Engine) (reg : SchemaVersionRegistry) (fs : FS)
    (schema : Option SchemaArg) (schema_version : Option String) :
    Except PyExc ValidatorState :=
  Validator_init_finish eng fs
    (Validator_init_load reg fs schema schema_version)

/-- Coerce the already-parsed instance back to the shape
`detect_schema_version` dispatches on: `isinstance(data, (Path, str))`
captures string instances, a dict is a mapping, anything else is the
`TypeError` branch. -/
def pyDataOfJson : JsonVal → PyData
  | .str s => .str s
  | .obj fields => .dict fields
  | _ => .otherData

/-- `Validator.validate` (validator.py lines 231–415).

Stages, as in the source: load the instance (a `str` is a filesystem path);
optionally auto-detect the declared version via the registry and either
produce a synthetic error, switch to a version-specific validator, or fall
through; run the engine, sort its errors by instance path and convert them
to `ValidationErrorDetail`s; the BIDS pass is the source's explicit no-op;
finally raise or return the collected errors. -/
def validate (hasFuzzy : Bool)
    (fuzzyExtractOne : String → List String → Option (String × Nat))
    (eng : Engine) (reg : SchemaVersionRegistry) (st : ValidatorState)
    (fs : FS) (data : PyData) (raise_exceptions : Bool)
    (bids_context : Option String) (auto_detect_version : Bool) :
    Except PyExc (List ValidationErrorDetail) :=
  -- --- Load Instance ---
  let inst : Except PyExc JsonVal :=
    match data with
    | .path p | .str p =>
      match lookupFS fs p with
      | none => .error (.fileNotFound ("Data file not found: " ++ p))
      | some .malformed =>
        .error (.sjError ("Error decoding data JSON from " ++ p) [])
      | some (.parsed j) => .ok j
    | .dict fields => .ok (.obj fields)
    | .otherData => .error (.typeError "Data must be a Path, string, or dictionary.")
  match inst with
  | .error e => .error e
  | .ok instVal =>
    -- --- Version Detection and Validator Selection ---
    let selected : Except PyExc (Sum (JsonVal → List RawError)
        (List ValidationErrorDetail)) :=
      if auto_detect_version then
        match detect_schema_version reg fs (pyDataOfJson instVal) with
        | .error (.fileNotFound m) => .error (.fileNotFound m)
        | .error (.ioError m) => .error (.ioError m)
        | .error _ =>
          -- `except Exception`: synthetic version-detection error
          let msg := "Error during schema version detection: TypeError"
          if raise_exceptions then .error (.sjError msg [])
          else
            match instVal with
            | .obj fields =>
              .ok (.inr [mkDetailU hasFuzzy fuzzyExtractOne msg
                [.s "schema_version"] [] "version_detection" .null
                (getSchemaVersionField fields)])
            | _ => .error .attributeError
        | .ok detected =>
          if truthy detected then
            match detected with
            | .str s =>
              if !is_version_supported reg s then
                let msg := "Detected schema version \x27" ++ pyStr detected ++
                  "\x27 is not supported. Available versions: " ++
                  strListRepr reg.supported
                if raise_exceptions then .error (.sjError msg [])
                else
                  .ok (.inr [mkDetailU hasFuzzy fuzzyExtractOne msg
                    [.s "schema_version"] [] "version_support"
                    (.arr (reg.supported.map fun v => .str v)) detected])
              else
                -- use a version-specific validator if different from current
                if (match st.schema_version with
                    | some t => s != t
                    | none => true) then
                  .ok (.inl (eng.version_errors s))
                else
                  .ok (.inl eng.self_errors)
            | _ =>
              -- a truthy non-string can never be in the supported list
              let msg := "Detected schema version \x27" ++ pyStr detected ++
                "\x27 is not supported. Available versions: " ++
                strListRepr reg.supported
              if raise_exceptions then .error (.sjError msg [])
              else
                .ok (.inr [mkDetailU hasFuzzy fuzzyExtractOne msg
                  [.s "schema_version"] [] "version_support"
                  (.arr (reg.supported.map fun v => .str v)) detected])
          else if st.schema_version.isNone then
            let msg := "No schema_version field found in data and no default version configured. Please specify a schema_version in your signalJourney file."
            if raise_exceptions then .error (.sjError msg [])
            else
              .ok (.inr [mkDetailU hasFuzzy fuzzyExtractOne msg
                [.s "schema_version"] [] "required" (.bool true) .null])
          else
            .ok (.inl eng.self_errors)
      else
        .ok (.inl eng.self_errors)
    match selected with
    | .error e => .error e
    | .ok (.inr details) => .ok details
    | .ok (.inl iter_errors) =>
      -- --- Schema Validation ---
      match convertDetails hasFuzzy fuzzyExtractOne
          (sortByPath (iter_errors instVal)) with
      | .error ex =>
        .error (.sjError
          ("An unexpected error occurred during schema validation: " ++ ex) [])
      | .ok schema_errors =>
        -- --- BIDS Context Validation (placeholder: reports zero errors) ---
        let bids_errors : List ValidationErrorDetail :=
          match bids_context with
          | some _ => []
          | none => []
        let all_errors := schema_errors ++ bids_errors
        -- --- Result Handling ---
        if all_errors.length != 0 then
          if raise_exceptions then
            .error (.sjError "Validation failed." all_errors)
          else
            .ok all_errors
        else
          .ok []

/-- `Validator.get_supported_versions` (validator.py lines 444–446):
delegates to the registry. -/
def Validator_get_supported_versions (reg : SchemaVersionRegistry) :
    List String :=
  get_supported_versions reg

/-! ## Claim-side notions and concrete fixtures -/

/-- The constraint names the specification lists as recognized by
suggestion generation. -/
def recognizedConstraints : List String :=
  ["required", "type", "pattern", "enum", "format", "minLength", "maxLength",
   "minItems", "maxItems", "minimum", "maximum", "exclusiveMinimum",
   "exclusiveMaximum"]

def isStrVal : JsonVal → Bool
  | .str _ => true
  | _ => false

/-- The `validator_value` shapes under which the `str.join` calls of
`_generate_suggestion` cannot raise: the `required`/`type` list values
contain only strings (guaranteed for schemas passing meta-validation). -/
def joinSafe : String → JsonVal → Bool
  | "required", .arr xs => xs.all isStrVal
  | "type", .arr xs => xs.all isStrVal
  | _, _ => true

/-- A registry fixture supporting exactly version 0.1.0. -/
def exReg : SchemaVersionRegistry := ⟨"schema/versions", ["0.1.0"]⟩

/-- An engine fixture that accepts every schema and reports no violations. -/
def exEngine : Engine := ⟨fun _ => [], fun _ _ => [], fun _ => true⟩

/-- A façade state fixture with default version 0.1.0. -/
def exState : ValidatorState := ⟨some "0.1.0", .obj []⟩

/-- A fuzzy-matcher oracle fixture that never produces a match. -/
def fz0 : String → List String → Option (String × Nat) := fun _ _ => none

/-- A versions-directory fixture: three well-formed versions plus a
subdirectory without the canonical schema file. -/
def exEntries : List DirEntry :=
  [⟨"0.2.0", true, true⟩, ⟨"0.1.0", true, true⟩, ⟨"1.0.0", true, true⟩,
   ⟨"drafts", true, false⟩]

/-- The canonical two-file reference cycle A→B→A. -/
def cycleFS : FS :=
  [("d/A.json", .parsed (.obj [("$ref", .str "B.json")])),
   ("d/B.json", .parsed (.obj [("$ref", .str "A.json")]))]

def cycleSchema : JsonVal := .obj [("$ref", .str "A.json")]

/-- A reference graph that contains the cycle A→B→A and additionally
references the scalar-content file S twice from the root document. -/
def crashFS : FS :=
  [("d/S.json", .parsed (.int 5)),
   ("d/A.json", .parsed (.obj [("$ref", .str "B.json")])),
   ("d/B.json", .parsed (.obj [("$ref", .str "A.json")]))]

def crashSchema : JsonVal :=
  .obj [("x", .obj [("$ref", .str "S.json")]),
        ("y", .obj [("$ref", .str "S.json")]),
        ("z", .obj [("$ref", .str "A.json")])]

/-! # Theorems -/

/-- C6, counterexample: for the constraint name `format` with the well-known
expected format `date-time`, `_generate_suggestion` produces **no**
suggestion at all (the method has no `format` branch), contradicting the
claim that the suggestion names the format keyword and contains an example
value. -/
theorem c6_format_counterexample :
    generate_suggestion false fz0 "format" (.str "date-time")
      (.str "not-a-date") = .ok none := rfl

/-- C6 (amended): for the constraint name `format`, suggestion generation
produces no suggestion whatsoever (and does not raise): `format` is not
among the constraint names `_generate_suggestion` recognizes, for any
expected/actual values and any fuzzy-matcher configuration. -/
theorem c6_format_no_suggestion (hasFuzzy : Bool)
    (fz : String → List String → Option (String × Nat))
    (vv iv : JsonVal) :
    generate_suggestion hasFuzzy fz "format" vv iv = .ok none := rfl

/-- C9, counterexample: a mapping declaring only the legacy `sj_version`
field: `detect_schema_version` returns `None` (it never consults
`sj_version`), while the claim says the legacy field's value "0.1.0" would
be returned. -/
theorem c9_sj_version_counterexample :
    detect_schema_version ⟨"schema/versions", []⟩ []
      (.dict [("sj_version", .str "0.1.0")]) = .ok .null := rfl

/-- C9 (amended): for an already-parsed mapping, `detect_schema_version`
returns exactly the value of the top-level `schema_version` field, and
`None` when that field is absent — the legacy `sj_version` field is never
consulted. -/
theorem c9_detect_schema_version_spec (reg : SchemaVersionRegistry) (fs : FS)
    (fields : List (String × JsonVal)) :
    (∀ v, dictGet fields "schema_version" = some v →
      detect_schema_version reg fs (.dict fields) = .ok v) ∧
    (dictGet fields "schema_version" = none →
      detect_schema_version reg fs (.dict fields) = .ok .null) := by
  constructor
  · intro v hv
    simp [detect_schema_version, getSchemaVersionField, hv]
  · intro hv
    simp [detect_schema_version, getSchemaVersionField, hv]

/-- C9 witness: the amended theorem evaluated on concrete mappings — a
mapping carrying both fields yields the `schema_version` value, and one
carrying only `sj_version` yields `None`. -/
theorem c9_detect_schema_version_spec_witness :
    detect_schema_version exReg []
      (.dict [("schema_version", .str "0.2.0"), ("sj_version", .str "0.1.0")]) =
      .ok (.str "0.2.0") ∧
    detect_schema_version exReg [] (.dict [("sj_version", .str "0.1.0")]) =
      .ok .null :=
  ⟨(c9_detect_schema_version_spec exReg [] _).1 _ rfl,
   (c9_detect_schema_version_spec exReg [] _).2 rfl⟩

/-- C7: when a mapping's external `$ref` points at a path that is missing
from the filesystem or whose content fails to parse, `inline_refs` does not
abort: it returns normally (no exception outcome) with the original mapping
— the unexpanded `$ref` — unchanged, and the cache untouched. -/
theorem c7_inline_refs_bad_target (fs : FS) (n : Nat) (base : String)
    (cache : Cache) (fields : List (String × JsonVal)) (r : String)
    (h1 : refTarget fields = some r)
    (h2 : lookupC cache (resolvePath base r) = none)
    (h3 : lookupFS fs (resolvePath base r) = none ∨
      lookupFS fs (resolvePath base r) = some .malformed) :
    inline_refs fs (n + 1) base (.obj fields) cache =
      some (.ok (.obj fields) cache) := by
  rcases h3 with h3 | h3 <;> simp [inline_refs, h1, h2, h3]

/-- C7 witness: a `$ref` to a missing file and a `$ref` to a file with
malformed JSON both degrade to the original mapping. -/
theorem c7_inline_refs_bad_target_witness :
    inline_refs [] 1 "d" (.obj [("$ref", .str "missing.json")]) [] =
      some (.ok (.obj [("$ref", .str "missing.json")]) []) ∧
    inline_refs [("d/bad.json", .malformed)] 1 "d"
      (.obj [("$ref", .str "bad.json")]) [] =
      some (.ok (.obj [("$ref", .str "bad.json")]) []) :=
  ⟨c7_inline_refs_bad_target [] 0 "d" [] _ "missing.json" rfl rfl (Or.inl rfl),
   c7_inline_refs_bad_target [("d/bad.json", .malformed)] 0 "d" [] _
     "bad.json" rfl rfl (Or.inr rfl)⟩

/-- `str.join` succeeds on a list of string values. -/
theorem pyJoin_ok_of_all_str (sep : String) :
    ∀ xs : List JsonVal, xs.all isStrVal = true →
      ∃ t, pyJoin sep xs = .ok t := by
  intro xs
  induction xs with
  | nil => exact fun _ => ⟨"", rfl⟩
  | cons x xs ih =>
    intro h
    simp only [List.all_cons, Bool.and_eq_true] at h
    obtain ⟨hx, hxs⟩ := h
    rcases x with _ | b | n | s | ax | fx <;> simp [isStrVal] at hx
    cases xs with
    | nil => exact ⟨s, rfl⟩
    | cons y ys =>
      obtain ⟨t, ht⟩ := ih hxs
      refine ⟨s ++ sep ++ t, ?_⟩
      simp [pyJoin, ht]

/-- C8, counterexample: suggestion generation **can** raise: for the
constraint name `required` with a non-string list member as the expected
value, the `"', '".join(missing_props)` call raises `TypeError`,
contradicting "never raises". -/
theorem c8_generate_suggestion_raises_counterexample :
    generate_suggestion false fz0 "required" (.arr [.int 1]) .null =
      .error "TypeError: sequence item: expected str instance" := rfl

/-- C8 (amended): suggestion generation is pure and performs no I/O (it is
a total function of its arguments); for any constraint name outside the
recognized set the suggestion field remains absent; and it never raises
provided the `required`/`type` list-valued expected values contain only
strings (as schemas passing meta-validation guarantee) — without that
proviso it can raise `TypeError`. -/
theorem c8_generate_suggestion_safe (hasFuzzy : Bool)
    (fz : String → List String → Option (String × Nat))
    (v : String) (vv iv : JsonVal) :
    (v ∉ recognizedConstraints →
      generate_suggestion hasFuzzy fz v vv iv = .ok none) ∧
    (joinSafe v vv = true →
      ∃ s, generate_suggestion hasFuzzy fz v vv iv = .ok s) := by
  constructor
  · intro h
    simp only [recognizedConstraints, List.mem_cons, List.mem_singleton,
      not_or] at h
    obtain ⟨h1, h2, h3, h4, h5, h6, h7, h8, h9, h10, h11, h12, h13⟩ := h
    simp [generate_suggestion, h1, h2, h3, h4, h5, h6, h7, h8, h9, h10,
      h11, h12, h13]
  · intro hsafe
    by_cases h1 : v = "required"
    · subst h1
      rcases vv with _ | b | n | s | xs | fl
      · exact ⟨_, rfl⟩
      · exact ⟨_, rfl⟩
      · exact ⟨_, rfl⟩
      · exact ⟨_, rfl⟩
      · have hall : xs.all isStrVal = true := by simpa [joinSafe] using hsafe
        obtain ⟨t, ht⟩ := pyJoin_ok_of_all_str "\x27, \x27" xs hall
        refine ⟨some ("Ensure required property or properties (\x27" ++ t ++
          "\x27) are present."), ?_⟩
        simp [generate_suggestion, ht]
      · exact ⟨_, rfl⟩
    · by_cases h2 : v = "type"
      · subst h2
        rcases vv with _ | b | n | s | xs | fl
        · exact ⟨_, rfl⟩
        · exact ⟨_, rfl⟩
        · exact ⟨_, rfl⟩
        · exact ⟨_, rfl⟩
        · have hall : xs.all isStrVal = true := by simpa [joinSafe] using hsafe
          obtain ⟨t, ht⟩ := pyJoin_ok_of_all_str "\x27, \x27" xs hall
          refine ⟨some ("Change value type from \x27" ++ pyTypeName iv ++
            "\x27 to one of: \x27" ++ t ++ "\x27."), ?_⟩
          simp [generate_suggestion, h1, ht]
        · exact ⟨_, rfl⟩
      · by_cases h3 : v = "pattern"
        · subst h3; exact ⟨_, rfl⟩
        · by_cases h4 : v = "enum"
          · subst h4
            rcases vv with _ | b | n | s | xs | fl <;> exact ⟨_, rfl⟩
          · by_cases h5 : v = "minLength"
            · subst h5; exact ⟨_, rfl⟩
            · by_cases h6 : v = "maxLength"
              · subst h6; exact ⟨_, rfl⟩
              · by_cases h7 : v = "minItems"
                · subst h7; exact ⟨_, rfl⟩
                · by_cases h8 : v = "maxItems"
                  · subst h8; exact ⟨_, rfl⟩
                  · by_cases h9 : v = "minimum"
                    · subst h9; exact ⟨_, rfl⟩
                    · by_cases h10 : v = "maximum"
                      · subst h10; exact ⟨_, rfl⟩
                      · by_cases h11 : v = "exclusiveMinimum"
                        · subst h11; exact ⟨_, rfl⟩
                        · by_cases h12 : v = "exclusiveMaximum"
                          · subst h12; exact ⟨_, rfl⟩
                          · refine ⟨none, ?_⟩
                            simp [generate_suggestion, h1, h2, h3, h4, h5,
                              h6, h7, h8, h9, h10, h11, h12]

/-- C8 witness: the amended theorem evaluated concretely — an unrecognized
constraint name yields no suggestion, and a join-safe recognized constraint
yields a suggestion without raising. -/
theorem c8_generate_suggestion_safe_witness :
    ("customConstraint" ∉ recognizedConstraints ∧
      generate_suggestion false fz0 "customConstraint" .null .null = .ok none) ∧
    (joinSafe "required" (.arr [.str "stepId"]) = true ∧
      ∃ s, generate_suggestion false fz0 "required" (.arr [.str "stepId"])
        .null = .ok s) :=
  ⟨⟨by decide,
    (c8_generate_suggestion_safe false fz0 "customConstraint" .null .null).1
      (by decide)⟩,
   ⟨rfl,
    (c8_generate_suggestion_safe false fz0 "required" (.arr [.str "stepId"])
      .null).2 rfl⟩⟩

/-- A cached address is bounded by the running maximum of heap addresses. -/
theorem heapGet_le_foldMax :
    ∀ (h : VHeap) (a : Nat) (v : List String), heapGet h a = some v →
      a ≤ (h.map fun p => p.1).foldr Nat.max 0 := by
  intro h
  induction h with
  | nil => intro a v hv; simp [heapGet] at hv
  | cons e rest ih =>
    intro a v hv
    obtain ⟨b, w⟩ := e
    unfold heapGet at hv
    simp only [List.map_cons, List.foldr_cons]
    by_cases hb : b = a
    · subst hb; exact Nat.le_max_left _ _
    · rw [if_neg hb] at hv
      exact le_trans (ih a v hv) (Nat.le_max_right _ _)

/-- Fresh addresses are really fresh. -/
theorem heapGet_lt_freshAddr (h : VHeap) (a : Nat) (v : List String)
    (hv : heapGet h a = some v) : a < freshAddr h := by
  have := heapGet_le_foldMax h a v hv
  unfold freshAddr
  omega

/-- Writing one address leaves every other address unchanged. -/
theorem heapGet_heapSet_ne (h : VHeap) (a b : Nat) (v : List String)
    (hne : b ≠ a) : heapGet (heapSet h a v) b = heapGet h b := by
  induction h with
  | nil => rfl
  | cons e rest ih =>
    obtain ⟨p, w⟩ := e
    simp only [heapSet, List.map_cons] at ih ⊢
    by_cases hp : p = a
    · subst hp
      rw [if_pos rfl]
      simp only [heapGet]
      rw [if_neg fun hh => hne hh.symm, if_neg fun hh => hne hh.symm]
      exact ih
    · rw [if_neg hp]
      simp only [heapGet]
      by_cases hpb : p = b
      · rw [if_pos hpb, if_pos hpb]
      · rw [if_neg hpb, if_neg hpb]
        exact ih

/-- C10: `get_supported_versions` hands back a **copy**: the returned list
object holds the registry's contents, and mutating it (overwriting it in the
heap) leaves the registry's `_supported_versions` — and hence
`is_version_supported`, `get_latest_version`, and `get_schema_path` —
unchanged. -/
theorem c10_get_supported_versions_copy (reg : RegistryObj) (h : VHeap)
    (l newList : List String) (v : String) (a : Nat) (h1 : VHeap)
    (hh : heapGet h reg.suppAddr = some l)
    (hcall : get_supported_versions_heap reg h = (a, h1)) :
    heapGet h1 a = some l ∧
    regView reg (heapSet h1 a newList) = regView reg h ∧
    is_version_supported (regView reg (heapSet h1 a newList)) v =
      is_version_supported (regView reg h) v ∧
    get_latest_version (regView reg (heapSet h1 a newList)) =
      get_latest_version (regView reg h) ∧
    get_schema_path (regView reg (heapSet h1 a newList)) v =
      get_schema_path (regView reg h) v := by
  unfold get_supported_versions_heap at hcall
  injection hcall with ha hh1
  subst ha; subst hh1
  have hfresh : reg.suppAddr ≠ freshAddr h := by
    have := heapGet_lt_freshAddr h reg.suppAddr l hh
    omega
  have hget1 : heapGet ((freshAddr h, (heapGet h reg.suppAddr).getD []) :: h)
      (freshAddr h) = some l := by
    simp [heapGet, hh]
  have hview : regView reg (heapSet
      ((freshAddr h, (heapGet h reg.suppAddr).getD []) :: h)
      (freshAddr h) newList) = regView reg h := by
    unfold regView
    rw [heapGet_heapSet_ne _ _ _ _ hfresh]
    simp only [heapGet]
    rw [if_neg fun hh2 => hfresh hh2.symm]
  exact ⟨hget1, hview, by rw [hview], by rw [hview], by rw [hview]⟩

/-- C10 witness: the theorem evaluated on a one-object heap — after the
returned copy is overwritten with `["9.9.9"]`, the registry still reports
version 0.1.0 as supported and latest. -/
theorem c10_get_supported_versions_copy_witness :
    heapGet [(1, ["0.1.0"]), (0, ["0.1.0"])] 1 = some ["0.1.0"] ∧
    regView ⟨"schema/versions", 0⟩
      (heapSet [(1, ["0.1.0"]), (0, ["0.1.0"])] 1 ["9.9.9"]) =
      regView ⟨"schema/versions", 0⟩ [(0, ["0.1.0"])] ∧
    is_version_supported (regView ⟨"schema/versions", 0⟩
      (heapSet [(1, ["0.1.0"]), (0, ["0.1.0"])] 1 ["9.9.9"])) "0.1.0" =
      is_version_supported (regView ⟨"schema/versions", 0⟩ [(0, ["0.1.0"])])
        "0.1.0" ∧
    get_latest_version (regView ⟨"schema/versions", 0⟩
      (heapSet [(1, ["0.1.0"]), (0, ["0.1.0"])] 1 ["9.9.9"])) =
      get_latest_version (regView ⟨"schema/versions", 0⟩ [(0, ["0.1.0"])]) ∧
    get_schema_path (regView ⟨"schema/versions", 0⟩
      (heapSet [(1, ["0.1.0"]), (0, ["0.1.0"])] 1 ["9.9.9"])) "0.1.0" =
      get_schema_path (regView ⟨"schema/versions", 0⟩ [(0, ["0.1.0"])])
        "0.1.0" :=
  c10_get_supported_versions_copy ⟨"schema/versions", 0⟩ [(0, ["0.1.0"])]
    ["0.1.0"] ["9.9.9"] "0.1.0" 1 [(1, ["0.1.0"]), (0, ["0.1.0"])] rfl rfl

/-- The finish stage never raises `ValueError`: its failure modes are
non-termination markers, `AttributeError` from inlining, and the
invalid-schema `SignalJourneyValidationError`. -/
theorem init_finish_no_valueError (eng : Engine) (fs : FS)
    (vf : Option String) (j : JsonVal) (b : String) (msg : String) :
    Validator_init_finish eng fs (.ok (vf, j, b)) ≠
      .error (.valueError msg) := by
  simp only [Validator_init_finish]
  split
  · simp
  · simp
  · split <;> simp

/-- On success the finish stage stores exactly the version the load stage
chose. -/
theorem init_finish_version (eng : Engine) (fs : FS) (vf : Option String)
    (j : JsonVal) (b : String) (st : ValidatorState)
    (h : Validator_init_finish eng fs (.ok (vf, j, b)) = .ok st) :
    st.schema_version = vf := by
  simp only [Validator_init_finish] at h
  split at h
  · cases h
  · cases h
  · split at h
    · cases h
      rfl
    · cases h

/-- `_load_schema_dict` fails only with `FileNotFoundError` or `IOError`. -/
theorem load_schema_dict_no_valueError (fs : FS) (p : String) (msg : String) :
    load_schema_dict fs p ≠ .error (.valueError msg) := by
  unfold load_schema_dict
  split <;> simp

/-- C5, counterexample: constructing the façade with **both** an explicit
pre-loaded schema and an explicit version string succeeds (the provided
schema is used and the version is stored) — no configuration error is
raised, contradicting the claimed mutual exclusion. -/
theorem c5_init_both_counterexample :
    Validator_init exEngine exReg [] (some (.dict [("type", .str "object")]))
      (some "0.1.0") =
      .ok ⟨some "0.1.0", .obj [("type", .str "object")]⟩ := rfl

/-- C5 (amended): when an explicit schema is supplied, `Validator.__init__`
ignores the registry entirely (the result does not depend on it), never
raises the unsupported-version `ValueError`, and on success stores the
supplied `schema_version` unchecked — the two options are **not** mutually
exclusive. -/
theorem c5_init_no_mutual_exclusion (eng : Engine)
    (reg reg2 : SchemaVersionRegistry) (fs : FS) (arg : SchemaArg)
    (sv : Option String) :
    (Validator_init eng reg fs (some arg) sv =
      Validator_init eng reg2 fs (some arg) sv) ∧
    (∀ msg, Validator_init eng reg fs (some arg) sv ≠
      .error (.valueError msg)) ∧
    (∀ st, Validator_init eng reg fs (some arg) sv = .ok st →
      st.schema_version = sv) := by
  refine ⟨by cases arg <;> rfl, ?_, ?_⟩
  · intro msg h
    cases arg with
    | dict fields =>
      exact init_finish_no_valueError eng fs sv (.obj fields)
        (parentDir DEFAULT_SCHEMA_PATH) msg h
    | path p =>
      unfold Validator_init Validator_init_load at h
      cases hl : load_schema_dict fs p with
      | error e =>
        simp only [hl] at h
        simp only [Validator_init_finish] at h
        cases h
        exact load_schema_dict_no_valueError fs p msg hl
      | ok j =>
        simp only [hl] at h
        exact init_finish_no_valueError eng fs sv j (parentDir p) msg h
  · intro st h
    cases arg with
    | dict fields =>
      exact init_finish_version eng fs sv (.obj fields)
        (parentDir DEFAULT_SCHEMA_PATH) st h
    | path p =>
      unfold Validator_init Validator_init_load at h
      cases hl : load_schema_dict fs p with
      | error e =>
        simp only [hl] at h
        simp only [Validator_init_finish] at h
        cases h
      | ok j =>
        simp only [hl] at h
        exact init_finish_version eng fs sv j (parentDir p) st h

/-- C5 witness: the amended theorem evaluated with both options supplied —
the result is registry-independent and the version string is stored. -/
theorem c5_init_no_mutual_exclusion_witness :
    (Validator_init exEngine exReg [] (some (.dict [("type", .str "object")]))
        (some "0.1.0") =
      Validator_init exEngine ⟨"elsewhere", []⟩ []
        (some (.dict [("type", .str "object")])) (some "0.1.0")) ∧
    (⟨some "0.1.0", .obj [("type", .str "object")]⟩ :
      ValidatorState).schema_version = some "0.1.0" :=
  ⟨(c5_init_no_mutual_exclusion exEngine exReg ⟨"elsewhere", []⟩ []
      (.dict [("type", .str "object")]) (some "0.1.0")).1,
   (c5_init_no_mutual_exclusion exEngine exReg ⟨"elsewhere", []⟩ []
      (.dict [("type", .str "object")]) (some "0.1.0")).2.2
     ⟨some "0.1.0", .obj [("type", .str "object")]⟩ rfl⟩

/-- C2, counterexample: a document *declaring* `schema_version` as the
empty string — a declared value outside the supported set `["0.1.0"]` — is
**not** answered with one synthetic version error: `if detected_version:`
treats the falsy `""` as undeclared, the façade's default version masks the
missing-version branch, and full structural validation runs (here returning
zero errors), contradicting "exactly one error detail ... and no structural
schema validation of the document is performed". -/
theorem c2_empty_version_counterexample :
    dictGet [("schema_version", JsonVal.str "")] "schema_version" =
      some (.str "") ∧
    isSupportedJ exReg (.str "") = false ∧
    validate false fz0 exEngine exReg exState []
      (.dict [("schema_version", .str "")]) false none true = .ok [] := by
  refine ⟨rfl, rfl, ?_⟩
  have hs : sortByPath ([] : List RawError) = [] := by
    simp [sortByPath]
  simp [validate, detect_schema_version, pyDataOfJson, getSchemaVersionField,
    dictGet, truthy, exState, exEngine, hs, convertDetails]

/-- C2 (amended): for every document whose declared `schema_version` is
**truthy** (e.g. a non-empty string) and not in the registry's supported
set, `validate` with `raise_exceptions = False` returns exactly one error
detail whose message names the unsupported version and the supported-version
list, and the result is independent of the structural-validation engine (no
structural schema validation is performed). -/
theorem c2_validate_unsupported_version (hf : Bool)
    (fz : String → List String → Option (String × Nat))
    (eng eng2 : Engine) (reg : SchemaVersionRegistry) (st : ValidatorState)
    (fs : FS) (fields : List (String × JsonVal)) (bc : Option String)
    (v : JsonVal)
    (h1 : dictGet fields "schema_version" = some v)
    (h2 : truthy v = true)
    (h3 : isSupportedJ reg v = false) :
    validate hf fz eng reg st fs (.dict fields) false bc true =
      .ok [mkDetailU hf fz
        ("Detected schema version \x27" ++ pyStr v ++
          "\x27 is not supported. Available versions: " ++
          strListRepr reg.supported)
        [.s "schema_version"] [] "version_support"
        (.arr (reg.supported.map fun s => .str s)) v] ∧
    validate hf fz eng reg st fs (.dict fields) false bc true =
      validate hf fz eng2 reg st fs (.dict fields) false bc true := by
  have key : ∀ e : Engine,
      validate hf fz e reg st fs (.dict fields) false bc true =
      .ok [mkDetailU hf fz
        ("Detected schema version \x27" ++ pyStr v ++
          "\x27 is not supported. Available versions: " ++
          strListRepr reg.supported)
        [.s "schema_version"] [] "version_support"
        (.arr (reg.supported.map fun s => .str s)) v] := by
    intro e
    rcases v with _ | b | n | s | xs | fl <;>
      simp [isSupportedJ] at h3 <;>
      simp [validate, detect_schema_version, pyDataOfJson,
        getSchemaVersionField, h1, h2, h3]
  exact ⟨key eng, (key eng).trans (key eng2).symm⟩

/-- C2 witness: the amended theorem evaluated on a document declaring the
unsupported version "0.9.9" against a registry supporting only "0.1.0". -/
theorem c2_validate_unsupported_version_witness :
    validate false fz0 exEngine exReg exState []
      (.dict [("schema_version", .str "0.9.9")]) false none true =
      .ok [mkDetailU false fz0
        ("Detected schema version \x27" ++ pyStr (.str "0.9.9") ++
          "\x27 is not supported. Available versions: " ++
          strListRepr exReg.supported)
        [.s "schema_version"] [] "version_support"
        (.arr (exReg.supported.map fun s => .str s)) (.str "0.9.9")] :=
  (c2_validate_unsupported_version false fz0 exEngine exEngine exReg exState
    [] [("schema_version", .str "0.9.9")] none (.str "0.9.9")
    rfl rfl rfl).1

/-- C1: evaluating `Validator.validate` at the failing input — the
JSON-encoded string `{"schema_version": "0.1.0"}` passed as `data` on an
empty filesystem.  The source coerces every `str` to `Path(data)`, so the
JSON text is never parsed: the call raises
`FileNotFoundError("Data file not found: ...")` instead of parsing and
validating the document, contradicting the claim (and the method's own
docstring, which lists "the JSON string" as an accepted input). -/
theorem c1_json_string_treated_as_path :
    validate false fz0 exEngine exReg exState []
      (.str "\x7b\x22schema_version\x22: \x220.1.0\x22\x7d") false none true =
      .error (.fileNotFound
        "Data file not found: \x7b\x22schema_version\x22: \x220.1.0\x22\x7d") :=
  rfl

/-- Python tuple `<=` is reflexive. -/
theorem tupLe_refl : ∀ a : List Int, tupLe a a = true := by
  intro a
  induction a with
  | nil => rfl
  | cons x xs ih =>
    unfold tupLe
    rw [if_neg (lt_irrefl x), if_neg (lt_irrefl x)]
    exact ih

/-- Python tuple `<=` is total. -/
theorem tupLe_total : ∀ a b : List Int, (tupLe a b || tupLe b a) = true := by
  intro a
  induction a with
  | nil => intro b; simp [tupLe]
  | cons x xs ih =>
    intro b
    cases b with
    | nil => simp [tupLe]
    | cons y ys =>
      unfold tupLe
      rcases lt_trichotomy x y with h | h | h
      · simp [h]
      · subst h
        simp only [lt_irrefl, if_false]
        exact ih ys
      · simp [h, asymm h]

/-- Python tuple `<=` is transitive. -/
theorem tupLe_trans : ∀ a b c : List Int,
    tupLe a b = true → tupLe b c = true → tupLe a c = true := by
  intro a
  induction a with
  | nil => intro b c h1 h2; simp [tupLe]
  | cons x xs ih =>
    intro b c h1 h2
    cases b with
    | nil => simp [tupLe] at h1
    | cons y ys =>
      cases c with
      | nil => simp [tupLe] at h2
      | cons z zs =>
        unfold tupLe at h1 h2 ⊢
        by_cases hxy : x < y
        · by_cases hyz : y < z
          · rw [if_pos (lt_trans hxy hyz)]
          · by_cases hzy : z < y
            · simp [hyz, hzy] at h2
            · have hyz2 : y = z := le_antisymm (not_lt.mp hzy) (not_lt.mp hyz)
              subst hyz2
              rw [if_pos hxy]
        · by_cases hyx : y < x
          · simp [hxy, hyx] at h1
          · have hxy2 : x = y := le_antisymm (not_lt.mp hyx) (not_lt.mp hxy)
            subst hxy2
            simp only [lt_irrefl, if_false] at h1
            by_cases hxz : x < z
            · rw [if_pos hxz]
            · by_cases hzx : z < x
              · simp [hxz, hzx] at h2
              · have h0 : x = z := le_antisymm (not_lt.mp hzx) (not_lt.mp hxz)
                subst h0
                simp only [lt_irrefl, if_false] at h2 ⊢
                exact ih ys zs h1 h2

/-- Code-point order on character lists is irreflexive. -/
theorem lexLt_irrefl : ∀ a : List Char, lexLt a a = false := by
  intro a
  induction a with
  | nil => rfl
  | cons x xs ih =>
    unfold lexLt
    rw [if_neg (lt_irrefl x), if_neg (lt_irrefl x)]
    exact ih

/-- Code-point order on character lists is transitive. -/
theorem lexLt_trans : ∀ a b c : List Char,
    lexLt a b = true → lexLt b c = true → lexLt a c = true := by
  intro a
  induction a with
  | nil =>
    intro b c h1 h2
    cases c with
    | nil =>
      cases b with
      | nil => exact h1
      | cons y ys => simp [lexLt] at h2
    | cons z zs => rfl
  | cons x xs ih =>
    intro b c h1 h2
    cases b with
    | nil => simp [lexLt] at h1
    | cons y ys =>
      cases c with
      | nil => simp [lexLt] at h2
      | cons z zs =>
        unfold lexLt at h1 h2 ⊢
        by_cases hxy : x < y
        · by_cases hyz : y < z
          · rw [if_pos (lt_trans hxy hyz)]
          · by_cases hzy : z < y
            · simp [hyz, hzy] at h2
            · have hyz2 : y = z := le_antisymm (not_lt.mp hzy) (not_lt.mp hyz)
              subst hyz2
              rw [if_pos hxy]
        · by_cases hyx : y < x
          · simp [hxy, hyx] at h1
          · have hxy2 : x = y := le_antisymm (not_lt.mp hyx) (not_lt.mp hxy)
            subst hxy2
            simp only [lt_irrefl, if_false] at h1
            by_cases hxz : x < z
            · rw [if_pos hxz]
            · by_cases hzx : z < x
              · simp [hxz, hzx] at h2
              · have h0 : x = z := le_antisymm (not_lt.mp hzx) (not_lt.mp hxz)
                subst h0
                simp only [lt_irrefl, if_false] at h2 ⊢
                exact ih ys zs h1 h2

/-- Code-point order is connected: mutually incomparable lists are equal. -/
theorem lexLt_eq_of_not : ∀ a b : List Char,
    lexLt a b = false → lexLt b a = false → a = b := by
  intro a
  induction a with
  | nil =>
    intro b h1 h2
    cases b with
    | nil => rfl
    | cons y ys => simp [lexLt] at h1
  | cons x xs ih =>
    intro b h1 h2
    cases b with
    | nil => simp [lexLt] at h2
    | cons y ys =>
      unfold lexLt at h1 h2
      by_cases hxy : x < y
      · simp [hxy] at h1
      · by_cases hyx : y < x
        · simp [hyx] at h2
        · have hx : x = y := le_antisymm (not_lt.mp hyx) (not_lt.mp hxy)
          subst hx
          simp only [lt_irrefl, if_false] at h1 h2
          rw [ih ys h1 h2]

/-- Python string `<=` is transitive. -/
theorem strLe_trans (a b c : String) (h1 : strLe a b = true)
    (h2 : strLe b c = true) : strLe a c = true := by
  simp only [strLe, strLt, Bool.not_eq_true'] at h1 h2 ⊢
  by_cases hca : lexLt c.data a.data = true
  · by_cases hcb : lexLt c.data b.data = true
    · rw [hcb] at h2; cases h2
    · by_cases hbc : lexLt b.data c.data = true
      · have hba := lexLt_trans _ _ _ hbc hca
        rw [hba] at h1; cases h1
      · have hbceq : b.data = c.data :=
          lexLt_eq_of_not _ _ (Bool.eq_false_iff.mpr hbc)
            (Bool.eq_false_iff.mpr hcb)
        rw [← hbceq] at hca
        rw [hca] at h1; cases h1
  · exact Bool.eq_false_iff.mpr hca

/-- Python string `<=` is total. -/
theorem strLe_total (a b : String) : (strLe a b || strLe b a) = true := by
  by_cases hba : lexLt b.data a.data = true
  · have hab : lexLt a.data b.data = false := by
      by_cases h : lexLt a.data b.data = true
      · have hcontra := lexLt_trans _ _ _ hba h
        rw [lexLt_irrefl] at hcontra
        cases hcontra
      · exact Bool.eq_false_iff.mpr h
    simp [strLe, strLt, hab]
  · simp [strLe, strLt, Bool.eq_false_iff.mpr hba]

/-- The last element of a list is a member. -/
theorem getLast?_mem_aux {α : Type} : ∀ (l : List α) (m : α),
    l.getLast? = some m → m ∈ l := by
  intro l
  induction l with
  | nil => intro m h; cases h
  | cons a rest ih =>
    intro m h
    cases rest with
    | nil =>
      rw [List.getLast?_singleton] at h
      cases h
      exact List.mem_singleton_self a
    | cons b t =>
      rw [List.getLast?_cons_cons] at h
      exact List.mem_cons_of_mem a (ih m h)

/-- In a pairwise-`R`-sorted list (with `R` reflexive), the last element is
an upper bound of every member. -/
theorem pairwise_getLast_max {α : Type} {R : α → α → Prop}
    (hrefl : ∀ x, R x x) : ∀ (l : List α) (m : α), l.Pairwise R →
    l.getLast? = some m → ∀ x ∈ l, R x m := by
  intro l
  induction l with
  | nil => intro m _ h; cases h
  | cons a rest ih =>
    intro m hp hl x hx
    cases rest with
    | nil =>
      rw [List.getLast?_singleton] at hl
      cases hl
      have hxa := List.mem_singleton.mp hx
      subst hxa
      exact hrefl x
    | cons b t =>
      rw [List.getLast?_cons_cons] at hl
      obtain ⟨ha, hp2⟩ := List.pairwise_cons.mp hp
      rcases List.mem_cons.mp hx with hxa | hx2
      · subst hxa
        exact ha m (getLast?_mem_aux _ m hl)
      · exact ih m hp2 hl x hx2

/-- C3: version discovery sorts by numeric dotted-tuple comparison (a
permutation of the qualifying names, pairwise ordered by the numeric keys)
when every name parses; on any parse failure it falls back to a pure
lexical sort of the whole list; it returns the empty list when the versions
root does not exist; and whenever all names are well-formed dotted numerics,
`get_latest_version` of the discovered list is a maximum under numeric
dotted-tuple order. -/
theorem c3_discover_versions_spec (entries : List DirEntry) (vd : String) :
    discover_versions none = [] ∧
    (discover_versions (some entries)).Perm (qualifiedNames entries) ∧
    ((qualifiedNames entries).all (fun v => (versionKey v).isSome) = true →
      (discover_versions (some entries)).Pairwise
        (fun a b => tupLe (versionKeyD a) (versionKeyD b) = true)) ∧
    ((qualifiedNames entries).all (fun v => (versionKey v).isSome) = false →
      (discover_versions (some entries)).Pairwise
        (fun a b => strLe a b = true)) ∧
    (∀ m, get_latest_version ⟨vd, discover_versions (some entries)⟩ = some m →
      m ∈ qualifiedNames entries ∧
      ((qualifiedNames entries).all (fun v => (versionKey v).isSome) = true →
        ∀ v ∈ qualifiedNames entries,
          tupLe (versionKeyD v) (versionKeyD m) = true)) := by
  have hd : discover_versions (some entries) =
      if (qualifiedNames entries).all (fun v => (versionKey v).isSome) then
        (qualifiedNames entries).mergeSort
          (fun a b => tupLe (versionKeyD a) (versionKeyD b))
      else (qualifiedNames entries).mergeSort strLe := rfl
  have hperm : (discover_versions (some entries)).Perm
      (qualifiedNames entries) := by
    rw [hd]; split <;> exact List.mergeSort_perm _ _
  refine ⟨rfl, hperm, ?_, ?_, ?_⟩
  · intro hall
    rw [hd, if_pos hall]
    exact @List.sorted_mergeSort String
      (fun a b => tupLe (versionKeyD a) (versionKeyD b))
      (fun a b c h1 h2 => tupLe_trans _ _ _ h1 h2)
      (fun a b => tupLe_total _ _) (qualifiedNames entries)
  · intro hnall
    rw [hd, if_neg (by simp [hnall])]
    exact @List.sorted_mergeSort String strLe
      (fun a b c h1 h2 => strLe_trans a b c h1 h2)
      (fun a b => strLe_total a b) (qualifiedNames entries)
  · intro m hm
    have hmem : m ∈ discover_versions (some entries) :=
      getLast?_mem_aux _ m hm
    refine ⟨hperm.subset hmem, ?_⟩
    intro hall v hv
    have hpair : (discover_versions (some entries)).Pairwise
        (fun a b => tupLe (versionKeyD a) (versionKeyD b) = true) := by
      rw [hd, if_pos hall]
      exact @List.sorted_mergeSort String
        (fun a b => tupLe (versionKeyD a) (versionKeyD b))
        (fun a b c h1 h2 => tupLe_trans _ _ _ h1 h2)
        (fun a b => tupLe_total _ _) (qualifiedNames entries)
    exact @pairwise_getLast_max String
      (fun a b => tupLe (versionKeyD a) (versionKeyD b) = true)
      (fun x => tupLe_refl _) _ m hpair hm v (hperm.symm.subset hv)

-- C3 witness: the theorem evaluated on the claim's example
-- `{"0.2.0", "0.1.0", "1.0.0"}` (plus a subdirectory without the canonical
-- schema file, which is ignored): the latest version is "1.0.0", a maximum
-- under numeric dotted-tuple order, and a missing versions root yields `[]`.
unseal List.merge List.mergeSort in
theorem c3_discover_versions_spec_witness :
    get_latest_version ⟨"versions", discover_versions (some exEntries)⟩ =
      some "1.0.0" ∧
    "1.0.0" ∈ qualifiedNames exEntries ∧
    (∀ v ∈ qualifiedNames exEntries,
      tupLe (versionKeyD v) (versionKeyD "1.0.0") = true) ∧
    discover_versions none = [] := by
  have h := c3_discover_versions_spec exEntries "versions"
  have hm : get_latest_version
      ⟨"versions", discover_versions (some exEntries)⟩ = some "1.0.0" := by
    decide
  obtain ⟨hmem, hmax⟩ := h.2.2.2.2 "1.0.0" hm
  exact ⟨hm, hmem, hmax (by decide), h.1⟩

/-- Every JSON value has positive size. -/
theorem jsize_pos : ∀ j : JsonVal, 1 ≤ jsize j := by
  intro j
  cases j <;> simp [jsize]

theorem cacheLe_refl (c : Cache) : cacheLe c c := fun _ h => h

theorem cacheLe_trans {a b c : Cache} (h1 : cacheLe a b) (h2 : cacheLe b c) :
    cacheLe a c := fun p hp => h2 p (h1 p hp)

/-- Lookup after insert at the inserted key. -/
theorem lookupC_insertC_self : ∀ (c : Cache) (p : String) (v : JsonVal),
    lookupC (insertC c p v) p = some v := by
  intro c
  induction c with
  | nil => intro p v; simp [insertC, lookupC]
  | cons e rest ih =>
    intro p v
    obtain ⟨q, w⟩ := e
    by_cases hq : q = p
    · subst hq
      simp [insertC, lookupC]
    · simp [insertC, lookupC, hq]
      exact ih p v

/-- Lookup after insert at a different key. -/
theorem lookupC_insertC_ne : ∀ (c : Cache) (p q : String) (v : JsonVal),
    q ≠ p → lookupC (insertC c p v) q = lookupC c q := by
  intro c
  induction c with
  | nil =>
    intro p q v hne
    have hpq : ¬p = q := fun h => hne h.symm
    simp [insertC, lookupC, hpq]
  | cons e rest ih =>
    intro p q v hne
    obtain ⟨q2, w⟩ := e
    by_cases hq2 : q2 = p
    · subst hq2
      have hq2q : ¬q2 = q := fun h => hne h.symm
      simp [insertC, lookupC, hq2q]
    · simp only [insertC, if_neg hq2, lookupC]
      by_cases hq2q : q2 = q
      · rw [if_pos hq2q, if_pos hq2q]
      · rw [if_neg hq2q, if_neg hq2q]
        exact ih p q v hne

/-- Inserting only grows the cached key set. -/
theorem cacheLe_insertC (c : Cache) (p : String) (v : JsonVal) :
    cacheLe c (insertC c p v) := by
  intro q hq
  by_cases hqp : q = p
  · subst hqp
    rw [lookupC_insertC_self]
    rfl
  · rw [lookupC_insertC_ne c p q v hqp]
    exact hq

/-- Growing the cache can only shrink the weight of uncached files. -/
theorem fsWeight_mono (fs : FS) {c c2 : Cache} (h : cacheLe c c2) :
    fsWeight fs c2 ≤ fsWeight fs c := by
  induction fs with
  | nil => exact le_refl 0
  | cons e rest ih =>
    obtain ⟨p, fc⟩ := e
    unfold fsWeight
    have hterm : (if (lookupC c2 p).isSome then 0 else fileWeight fc) ≤
        (if (lookupC c p).isSome then 0 else fileWeight fc) := by
      by_cases hp : (lookupC c p).isSome = true
      · simp [hp, h p hp]
      · simp only [hp, if_false, Bool.false_eq_true]
        split <;> simp
    exact Nat.add_le_add hterm ih

/-- Caching a present, not-yet-cached file removes its weight. -/
theorem fsWeight_insert_le (fs : FS) (cache : Cache) (k : String)
    (v : JsonVal) (fc : FileContent) (hc : lookupC cache k = none)
    (hfs : lookupFS fs k = some fc) :
    fileWeight fc + fsWeight fs (insertC cache k v) ≤ fsWeight fs cache := by
  induction fs with
  | nil => simp [lookupFS] at hfs
  | cons e rest ih =>
    obtain ⟨p, c2⟩ := e
    unfold fsWeight
    unfold lookupFS at hfs
    by_cases hp : p = k
    · subst hp
      rw [if_pos rfl] at hfs
      cases hfs
      have h1 : (lookupC (insertC cache p v) p).isSome = true := by
        rw [lookupC_insertC_self]
        rfl
      have h2 : (lookupC cache p).isSome = false := by
        rw [hc]
        rfl
      simp only [h1, h2, if_true, if_false, Bool.false_eq_true]
      have hmono := fsWeight_mono rest (cacheLe_insertC cache p v)
      omega
    · rw [if_neg hp] at hfs
      have hterm : (if (lookupC (insertC cache k v) p).isSome then 0
          else fileWeight c2) =
          (if (lookupC cache p).isSome then 0 else fileWeight c2) := by
        rw [lookupC_insertC_ne cache k p v hp]
      rw [hterm]
      have := ih hfs
      omega

/-- The list walk returns with enough fuel, growing the cache. -/
theorem foldInlineL_some (fs : FS) (n : Nat)
    (rec : JsonVal → Cache → Option IRes)
    (hrec : ∀ x c, jsize x + fsWeight fs c + 1 ≤ n →
      ∃ r, rec x c = some r ∧ cacheLe c r.cache) :
    ∀ (xs : List JsonVal) (cache : Cache),
      jsizeL xs + fsWeight fs cache + 1 ≤ n →
      ∃ out, foldInlineL rec xs cache = some out ∧
        cacheLe cache (sumCache out) := by
  intro xs
  induction xs with
  | nil =>
    intro cache h
    exact ⟨.inl ([], cache), rfl, cacheLe_refl cache⟩
  | cons x xs ih =>
    intro cache h
    have hsz : jsizeL (x :: xs) = 1 + jsize x + jsizeL xs := rfl
    have hx : jsize x + fsWeight fs cache + 1 ≤ n := by omega
    obtain ⟨r, hr, hle⟩ := hrec x cache hx
    cases r with
    | raise c2 =>
      simp only [IRes.cache] at hle
      refine ⟨.inr c2, ?_, hle⟩
      simp [foldInlineL, hr]
    | ok v2 c2 =>
      simp only [IRes.cache] at hle
      have hmono := fsWeight_mono fs hle
      have hxs : jsizeL xs + fsWeight fs c2 + 1 ≤ n := by omega
      obtain ⟨out2, hout2, hle2⟩ := ih c2 hxs
      cases out2 with
      | inr c3 =>
        simp only [sumCache] at hle2
        refine ⟨.inr c3, ?_, cacheLe_trans hle hle2⟩
        simp [foldInlineL, hr, hout2]
      | inl pr =>
        obtain ⟨done, c3⟩ := pr
        simp only [sumCache] at hle2
        refine ⟨.inl (v2 :: done, c3), ?_, cacheLe_trans hle hle2⟩
        simp [foldInlineL, hr, hout2]

/-- The mapping walk returns with enough fuel, growing the cache. -/
theorem foldInlineF_some (fs : FS) (n : Nat)
    (rec : JsonVal → Cache → Option IRes)
    (hrec : ∀ x c, jsize x + fsWeight fs c + 1 ≤ n →
      ∃ r, rec x c = some r ∧ cacheLe c r.cache) :
    ∀ (xs : List (String × JsonVal)) (cache : Cache),
      jsizeF xs + fsWeight fs cache + 1 ≤ n →
      ∃ out, foldInlineF rec xs cache = some out ∧
        cacheLe cache (sumCache out) := by
  intro xs
  induction xs with
  | nil =>
    intro cache h
    exact ⟨.inl ([], cache), rfl, cacheLe_refl cache⟩
  | cons kx xs ih =>
    intro cache h
    obtain ⟨k, x⟩ := kx
    have hsz : jsizeF ((k, x) :: xs) = 1 + jsize x + jsizeF xs := rfl
    have hx : jsize x + fsWeight fs cache + 1 ≤ n := by omega
    obtain ⟨r, hr, hle⟩ := hrec x cache hx
    cases r with
    | raise c2 =>
      simp only [IRes.cache] at hle
      refine ⟨.inr c2, ?_, hle⟩
      simp [foldInlineF, hr]
    | ok v2 c2 =>
      simp only [IRes.cache] at hle
      have hmono := fsWeight_mono fs hle
      have hxs : jsizeF xs + fsWeight fs c2 + 1 ≤ n := by omega
      obtain ⟨out2, hout2, hle2⟩ := ih c2 hxs
      cases out2 with
      | inr c3 =>
        simp only [sumCache] at hle2
        refine ⟨.inr c3, ?_, cacheLe_trans hle hle2⟩
        simp [foldInlineF, hr, hout2]
      | inl pr =>
        obtain ⟨done, c3⟩ := pr
        simp only [sumCache] at hle2
        refine ⟨.inl ((k, v2) :: done, c3), ?_, cacheLe_trans hle hle2⟩
        simp [foldInlineF, hr, hout2]

/-- Adequacy of the fuel bound: with `inlineBound` fuel, `inline_refs`
always returns (no fuel exhaustion), and the cache only grows.  The
decreasing measure is the pair (weight of uncached files, size of the
current subtree): a `$ref` step caches a new file before recursing, and a
structural step shrinks the subtree. -/
theorem inline_refs_some : ∀ (n : Nat) (fs : FS) (base : String)
    (schema : JsonVal) (cache : Cache),
    inlineBound fs schema cache ≤ n →
    ∃ r, inline_refs fs n base schema cache = some r ∧
      cacheLe cache r.cache := by
  intro n
  induction n with
  | zero =>
    intro fs base schema cache h
    exfalso
    have := jsize_pos schema
    unfold inlineBound at h
    omega
  | succ n ih =>
    intro fs base schema cache h
    unfold inlineBound at h
    cases schema with
    | null => exact ⟨.ok .null cache, rfl, cacheLe_refl cache⟩
    | bool b => exact ⟨.ok (.bool b) cache, rfl, cacheLe_refl cache⟩
    | int m => exact ⟨.ok (.int m) cache, rfl, cacheLe_refl cache⟩
    | str s => exact ⟨.ok (.str s) cache, rfl, cacheLe_refl cache⟩
    | arr xs =>
      have hrec : ∀ x c, jsize x + fsWeight fs c + 1 ≤ n →
          ∃ r, inline_refs fs n base x c = some r ∧ cacheLe c r.cache :=
        fun x c hx => ih fs base x c hx
      have hsz : jsize (.arr xs) = 1 + jsizeL xs := rfl
      have hxs : jsizeL xs + fsWeight fs cache + 1 ≤ n := by omega
      obtain ⟨out, hout, hle⟩ :=
        foldInlineL_some fs n _ hrec xs cache hxs
      cases out with
      | inl pr =>
        obtain ⟨done, c2⟩ := pr
        simp only [sumCache] at hle
        refine ⟨.ok (.arr done) c2, ?_, hle⟩
        simp [inline_refs, hout]
      | inr c2 =>
        simp only [sumCache] at hle
        refine ⟨.raise c2, ?_, hle⟩
        simp [inline_refs, hout]
    | obj fields =>
      cases href : refTarget fields with
      | none =>
        have hrec : ∀ x c, jsize x + fsWeight fs c + 1 ≤ n →
            ∃ r, inline_refs fs n base x c = some r ∧ cacheLe c r.cache :=
          fun x c hx => ih fs base x c hx
        have hsz : jsize (.obj fields) = 1 + jsizeF fields := rfl
        have hxs : jsizeF fields + fsWeight fs cache + 1 ≤ n := by omega
        obtain ⟨out, hout, hle⟩ :=
          foldInlineF_some fs n _ hrec fields cache hxs
        cases out with
        | inl pr =>
          obtain ⟨done, c2⟩ := pr
          simp only [sumCache] at hle
          refine ⟨.ok (.obj done) c2, ?_, hle⟩
          simp [inline_refs, href, hout]
        | inr c2 =>
          simp only [sumCache] at hle
          refine ⟨.raise c2, ?_, hle⟩
          simp [inline_refs, href, hout]
      | some refStr =>
        cases hc : lookupC cache (resolvePath base refStr) with
        | some v =>
          cases hcp : copyJson v with
          | some v2 =>
            exact ⟨.ok v2 cache, by simp [inline_refs, href, hc, hcp],
              cacheLe_refl cache⟩
          | none =>
            exact ⟨.raise cache, by simp [inline_refs, href, hc, hcp],
              cacheLe_refl cache⟩
        | none =>
          cases hfs : lookupFS fs (resolvePath base refStr) with
          | none =>
            exact ⟨.ok (.obj fields) cache,
              by simp [inline_refs, href, hc, hfs], cacheLe_refl cache⟩
          | some fc =>
            cases fc with
            | malformed =>
              exact ⟨.ok (.obj fields) cache,
                by simp [inline_refs, href, hc, hfs], cacheLe_refl cache⟩
            | parsed content =>
              have hwt := fsWeight_insert_le fs cache
                (resolvePath base refStr) content (.parsed content) hc hfs
              have hfw : fileWeight (.parsed content) = jsize content + 1 :=
                rfl
              have hjs := jsize_pos (.obj fields)
              have hbound : inlineBound fs content
                  (insertC cache (resolvePath base refStr) content) ≤ n := by
                unfold inlineBound
                omega
              obtain ⟨r2, hr2, hle2⟩ := ih fs
                (parentDir (resolvePath base refStr)) content _ hbound
              cases r2 with
              | raise c2 =>
                simp only [IRes.cache] at hle2
                refine ⟨.ok (.obj fields) c2, ?_,
                  cacheLe_trans (cacheLe_insertC _ _ _) hle2⟩
                simp [inline_refs, href, hc, hfs, hr2]
              | ok resolved c2 =>
                simp only [IRes.cache] at hle2
                cases hcp : copyJson resolved with
                | some rr =>
                  refine ⟨.ok rr
                    (insertC c2 (resolvePath base refStr) resolved), ?_, ?_⟩
                  · simp [inline_refs, href, hc, hfs, hr2, hcp]
                  · exact cacheLe_trans (cacheLe_insertC _ _ _)
                      (cacheLe_trans hle2 (cacheLe_insertC _ _ _))
                | none =>
                  refine ⟨.ok (.obj fields)
                    (insertC c2 (resolvePath base refStr) resolved), ?_, ?_⟩
                  · simp [inline_refs, href, hc, hfs, hr2, hcp]
                  · exact cacheLe_trans (cacheLe_insertC _ _ _)
                      (cacheLe_trans hle2 (cacheLe_insertC _ _ _))

/-- C4, counterexample: a reference graph that **contains the cycle
A→B→A** on which `inline_refs` terminates but crashes: the root references
the scalar-content file S twice; the second occurrence hits the cache and
`loaded_schemas_cache[cache_key].copy()` (validator.py line 45, outside any
`try`) raises `AttributeError`, which propagates out of `inline_refs` —
contradicting "terminates ... and without crashing". -/
theorem c4_inline_refs_cycle_crash_counterexample :
    inline_refs crashFS (inlineBound crashFS crashSchema []) "d" crashSchema
      [] = some (.raise [("d/S.json", .int 5)]) := rfl

/-- C4 (amended): for **every** reference graph — cyclic ones included —
`inline_refs` terminates (the fuel bound `inlineBound` is never exhausted),
because a cache entry for a referenced file is inserted before recursing
into its content; and on the canonical dict-valued cycle A→B→A it returns
normally, without raising.  (It is not crash-free in general: see the
counterexample, where a scalar cache entry's `.copy()` raises.) -/
theorem c4_inline_refs_terminates :
    (∀ (fs : FS) (n : Nat) (base : String) (schema : JsonVal) (cache : Cache),
      inlineBound fs schema cache ≤ n →
      (inline_refs fs n base schema cache).isSome = true) ∧
    (∃ j c, inline_refs cycleFS (inlineBound cycleFS cycleSchema []) "d"
      cycleSchema [] = some (.ok j c)) := by
  constructor
  · intro fs n base schema cache h
    obtain ⟨r, hr, _⟩ := inline_refs_some n fs base schema cache h
    rw [hr]
    rfl
  · exact ⟨_, _, rfl⟩

/-- C4 witness: the fuel bound evaluated on the canonical cycle — the bound
is 12, and with that fuel the inliner returns. -/
theorem c4_inline_refs_terminates_witness :
    inlineBound cycleFS cycleSchema [] ≤ 12 ∧
    (inline_refs cycleFS 12 "d" cycleSchema []).isSome = true :=
  ⟨by decide,
   c4_inline_refs_terminates.1 cycleFS 12 "d" cycleSchema [] (by decide)⟩

end SignalJourney
